import Mathlib

/-!
Verification of the Listcat whitelist registry.

The registry is a Mongo collection of wallet documents.  We model the
collection as a `List` of documents in insertion order: `Wallet.find`
is `List.filter`, `Wallet.findOne` is `List.find?`, `Wallet.create`
appends at the end, and mutating a fetched document followed by
`doc.save()` rewrites that document in place.

Two embeddings appear below:
* `Listcat` — the command-surface bot (`src/wlbot.js`), whose schema
  carries a `listType` field, together with the HTTP endpoints of
  `src/unnamed/part_000` read through the spec's unified data model
  (the HTTP add/replace act on the same registry; documents they
  create carry the route's list kind and the schema defaults).
* `Listcat.HttpVariant` — the standalone HTTP variants
  (`src/unnamed/part_000` and `src/unnamed/part_001`), whose schema
  has no `listType` field, including `part_001`'s `FreeMint`
  collection and the CSV exports.
-/

namespace Listcat

/-- One document of the `Wallet` collection (`src/wlbot.js`, `walletSchema`):
`discordId`, `walletAddress`, `listType` (`"whitelist"` or `"freemint"`),
`registeredViaCode` (schema default `false`), `maxWhitelistEntries`
(schema default `1`). -/
structure Entry where
  discordId : String
  walletAddress : String
  listType : String
  registeredViaCode : Bool
  maxWhitelistEntries : Int
deriving DecidableEq, Repr

/-- The error taxonomy of spec section 7 for the store-changing operations. -/
inductive WErr where
  | duplicateEntry
  | slotLimitExceeded
  | entryNotFound
  | invalidArgument
deriving DecidableEq, Repr

/-- `Wallet.find({discordId, listType})`: the owner's documents for one
list kind, in insertion order. -/
def ownerDocs (s : List Entry) (uid lt : String) : List Entry :=
  s.filter (fun d => d.discordId == uid && d.listType == lt)

/-- `currentMax` of `addWallet` (wlbot.js line 238): the
`maxWhitelistEntries` of the first fetched document, or the default `1`
when the owner has no documents. -/
def effectiveLimit (s : List Entry) (uid lt : String) : Int :=
  match ownerDocs s uid lt with
  | [] => 1
  | d :: _ => d.maxWhitelistEntries

/-- `addWallet` (wlbot.js lines 222-266), after the role check: duplicate
check over the owner's documents, then the slot check — which the source
performs only when `listType === 'whitelist'` — then `Wallet.create`
with `maxWhitelistEntries: currentMax`.  On success it returns the new
store together with the literal reply string of line 263-265. -/
def addWallet (s : List Entry) (uid wallet lt : String) :
    Except WErr (List Entry × String) :=
  if (ownerDocs s uid lt).any (fun d => d.walletAddress == wallet) then
    .error .duplicateEntry
  else if lt = "whitelist" ∧ ((ownerDocs s uid lt).length : Int) ≥ effectiveLimit s uid lt then
    .error .slotLimitExceeded
  else
    .ok (s ++ [{ discordId := uid, walletAddress := wallet, listType := lt,
                 registeredViaCode := false,
                 maxWhitelistEntries := effectiveLimit s uid lt }],
         "✅ **" ++ wallet ++ "** added to the **" ++ lt ++ "** list!")

/-- Predicate of `Wallet.findOne({discordId, walletAddress, listType})`. -/
def keyed3 (uid w lt : String) (d : Entry) : Bool :=
  d.discordId == uid && d.walletAddress == w && d.listType == lt

/-- Predicate of `Wallet.findOne({discordId, walletAddress})` (the
`part_000` queries, which carry no `listType`). -/
def keyed2 (uid w : String) (d : Entry) : Bool :=
  d.discordId == uid && d.walletAddress == w

/-- Mutating `doc.walletAddress = newW` on the document `findOne`
returned — the first one satisfying `p` — followed by `doc.save()`:
rewrite that document in place, leaving every other document alone. -/
def saveReplaced (p : Entry → Bool) (newW : String) : List Entry → List Entry
  | [] => []
  | d :: rest =>
      if p d then { d with walletAddress := newW } :: rest
      else d :: saveReplaced p newW rest

/-- `replaceWallet` (wlbot.js lines 282-325), after the role check:
`findOne` on the old wallet (miss ⇒ not-found reply), `findOne` on the
new wallet (hit ⇒ duplicate reply), otherwise the in-place address swap. -/
def replaceWallet (s : List Entry) (uid oldW newW lt : String) :
    Except WErr (List Entry) :=
  match s.find? (keyed3 uid oldW lt) with
  | none => .error .entryNotFound
  | some _ =>
    match s.find? (keyed3 uid newW lt) with
    | some _ => .error .duplicateEntry
    | none => .ok (saveReplaced (keyed3 uid oldW lt) newW s)

/-- The `increasewhiteslots` handler (wlbot.js lines 372-414), after the
admin check: reject `slotsToAdd <= 0`; with no documents, create the
`'NONE'` placeholder with `maxWhitelistEntries = 1 + slotsToAdd`;
otherwise rewrite `maxWhitelistEntries = userDocs[0].max + slotsToAdd`
on every document of the owner's whitelist. -/
def increaseWhiteSlots (s : List Entry) (uid : String) (slotsToAdd : Int) :
    Except WErr (List Entry) :=
  if slotsToAdd ≤ 0 then .error .invalidArgument
  else
    match ownerDocs s uid "whitelist" with
    | [] =>
        .ok (s ++ [{ discordId := uid, walletAddress := "NONE",
                     listType := "whitelist", registeredViaCode := false,
                     maxWhitelistEntries := 1 + slotsToAdd }])
    | d0 :: _ =>
        .ok (s.map (fun d =>
          if d.discordId == uid && d.listType == "whitelist" then
            { d with maxWhitelistEntries := d0.maxWhitelistEntries + slotsToAdd }
          else d))

/-- `POST /whitelist` (`src/unnamed/part_000` lines 49-59) read through
the spec's unified data model: the duplicate check is
`findOne({discordId, walletAddress})` with no `listType` constraint
(the source schema has none), and `Wallet.create({discordId,
walletAddress})` yields a document on the route's list kind
`"whitelist"` carrying the schema defaults `registeredViaCode = false`
and `maxWhitelistEntries = 1`. -/
def httpAddWallet (s : List Entry) (uid wallet : String) :
    Except WErr (List Entry) :=
  match s.find? (keyed2 uid wallet) with
  | some _ => .error .duplicateEntry
  | none =>
      .ok (s ++ [{ discordId := uid, walletAddress := wallet,
                   listType := "whitelist", registeredViaCode := false,
                   maxWhitelistEntries := 1 }])

/-- `POST /replacewhitelist` (`src/unnamed/part_000` lines 62-74):
`findOne` on `(discordId, oldWallet)` — a miss answers 404 — then the
in-place address swap.  There is no duplicate check on `newWallet`. -/
def httpReplaceWallet (s : List Entry) (uid oldW newW : String) :
    Except WErr (List Entry) :=
  match s.find? (keyed2 uid oldW) with
  | none => .error .entryNotFound
  | some _ => .ok (saveReplaced (keyed2 uid oldW) newW s)

/-- The store-changing operations of the system: command-surface add,
HTTP add, both replace surfaces, and the admin slot increase. -/
inductive Op where
  | cmdAdd (uid wallet lt : String)
  | httpAdd (uid wallet : String)
  | cmdReplace (uid oldW newW lt : String)
  | httpReplace (uid oldW newW : String)
  | increaseSlots (uid : String) (delta : Int)
deriving DecidableEq, Repr

/-- Run one operation; a failing operation writes nothing. -/
def applyOp (s : List Entry) : Op → List Entry
  | .cmdAdd u w lt => match addWallet s u w lt with | .ok r => r.1 | .error _ => s
  | .httpAdd u w => match httpAddWallet s u w with | .ok t => t | .error _ => s
  | .cmdReplace u o n lt => match replaceWallet s u o n lt with | .ok t => t | .error _ => s
  | .httpReplace u o n => match httpReplaceWallet s u o n with | .ok t => t | .error _ => s
  | .increaseSlots u k => match increaseWhiteSlots s u k with | .ok t => t | .error _ => s

/-- Run a sequence of operations left to right. -/
def applyOps (s : List Entry) (ops : List Op) : List Entry :=
  ops.foldl applyOp s

def Op.isHttpAdd : Op → Bool
  | .httpAdd _ _ => true
  | _ => false

/-- The consistency invariant of spec section 3: all entries sharing
`(ownerId, listKind)` carry the same `maxSlots`. -/
def SameMax (s : List Entry) : Prop :=
  ∀ d1 ∈ s, ∀ d2 ∈ s, d1.discordId = d2.discordId → d1.listType = d2.listType →
    d1.maxWhitelistEntries = d2.maxWhitelistEntries

/-- Number of entries matching `(ownerId, address, listKind)`. -/
def countKey3 (s : List Entry) (uid w lt : String) : Nat :=
  (s.filter (keyed3 uid w lt)).length

/-- Number of entries matching `(ownerId, address)`. -/
def countKey2 (s : List Entry) (uid w : String) : Nat :=
  (s.filter (keyed2 uid w)).length

instance (s : List Entry) : Decidable (SameMax s) := by
  unfold SameMax
  infer_instance

namespace HttpVariant

/-- One document of the `Wallet` collection of the standalone HTTP
variants (`src/unnamed/part_000` lines 18-23 and `src/unnamed/part_001`
lines 28-33): this schema has no `listType` field. -/
structure WDoc where
  discordId : String
  walletAddress : String
  registeredViaCode : Bool
  maxWhitelistEntries : Int
deriving DecidableEq, Repr

/-- One document of the `FreeMint` collection (`src/unnamed/part_001`
lines 36-40). -/
structure FMDoc where
  discordId : String
  walletAddress : String
deriving DecidableEq, Repr

/-- Failures of the variant endpoints, named after their responses. -/
inductive HErr where
  | missingFields
  | duplicateWallet
  | oldWalletNotFound
  | noEntries
deriving DecidableEq, Repr

/-- Predicate of `Wallet.findOne({discordId, walletAddress})`. -/
def keyedW (uid w : String) (d : WDoc) : Bool :=
  d.discordId == uid && d.walletAddress == w

/-- In-place address rewrite of the first document satisfying `p`
(fetch by `findOne`, assign `walletAddress`, `save()`). -/
def saveReplacedW (p : WDoc → Bool) (newW : String) : List WDoc → List WDoc
  | [] => []
  | d :: rest =>
      if p d then { d with walletAddress := newW } :: rest
      else d :: saveReplacedW p newW rest

/-- Number of documents matching `(discordId, walletAddress)`. -/
def countW (s : List WDoc) (uid w : String) : Nat :=
  (s.filter (keyedW uid w)).length

/-- `POST /whitelist` of `part_000` (lines 49-59): duplicate check on
`(discordId, walletAddress)`, then `Wallet.create` with the schema
defaults. -/
def add000 (s : List WDoc) (uid wallet : String) : Except HErr (List WDoc) :=
  match s.find? (keyedW uid wallet) with
  | some _ => .error .duplicateWallet
  | none =>
      .ok (s ++ [{ discordId := uid, walletAddress := wallet,
                   registeredViaCode := false, maxWhitelistEntries := 1 }])

/-- `POST /replacewhitelist` of `part_000` (lines 62-74): `findOne` on
the old wallet — a miss answers 404 — then the in-place address swap.
No duplicate check is made on the new wallet. -/
def replace000 (s : List WDoc) (uid oldW newW : String) : Except HErr (List WDoc) :=
  match s.find? (keyedW uid oldW) with
  | none => .error .oldWalletNotFound
  | some _ => .ok (saveReplacedW (keyedW uid oldW) newW s)

/-- `GET /exportwhitelist` of `part_000` (lines 77-88): start from the
header line and append `discordId,walletAddress` newline-terminated
for every document, by string concatenation. -/
def csv000 (ws : List WDoc) : String :=
  ws.foldl (fun csv d => csv ++ (d.discordId ++ "," ++ d.walletAddress ++ "\n"))
    "Discord ID,Wallet Address\n"

/-- JavaScript `Array.prototype.join(sep)`. -/
def joinSep (sep : String) : List String → String
  | [] => ""
  | [a] => a
  | a :: b :: rest => a ++ sep ++ joinSep sep (b :: rest)

/-- Concatenation of a list of string pieces, used to state the
line-by-line shape of the CSV exports. -/
def concatAll : List String → String
  | [] => ""
  | a :: rest => a ++ concatAll rest

/-- The CSV row of one document in `GET /exportwhitelist` of `part_001`
(lines 114-119), fields in declared order. -/
def csvRow001 (e : WDoc) : List String :=
  [e.discordId, e.walletAddress,
   if e.registeredViaCode then "Yes" else "No",
   toString e.maxWhitelistEntries]

/-- `GET /exportwhitelist` of `part_001` (lines 106-125): 404 when the
store is empty, else the header row followed by one row per document,
each row comma-joined and the lines newline-joined. -/
def csv001 (ws : List WDoc) : Except HErr String :=
  if ws.length = 0 then .error .noEntries
  else
    .ok (joinSep "\n"
      (joinSep ","
          ["Discord ID", "Wallet Address", "Registered Via Code", "Max Whitelist Entries"]
        :: ws.map (fun e => joinSep "," (csvRow001 e))))

/-- `POST /whitelist` of `part_001` (lines 70-84): reject missing
(falsy, i.e. absent or empty) fields, then as in `part_000`. -/
def add001 (s : List WDoc) (uid wallet : String) : Except HErr (List WDoc) :=
  if uid = "" ∨ wallet = "" then .error .missingFields
  else
    match s.find? (keyedW uid wallet) with
    | some _ => .error .duplicateWallet
    | none =>
        .ok (s ++ [{ discordId := uid, walletAddress := wallet,
                     registeredViaCode := false, maxWhitelistEntries := 1 }])

/-- `POST /replacewhitelist` of `part_001` (lines 87-103): reject
missing fields, 400 when the old wallet is absent, then the in-place
address swap.  No duplicate check is made on the new wallet. -/
def replace001 (s : List WDoc) (uid oldW newW : String) : Except HErr (List WDoc) :=
  if uid = "" ∨ oldW = "" ∨ newW = "" then .error .missingFields
  else
    match s.find? (keyedW uid oldW) with
    | none => .error .oldWalletNotFound
    | some _ => .ok (saveReplacedW (keyedW uid oldW) newW s)

/-- The persistent state of the `part_001` program: the `Wallet` and
`FreeMint` collections. -/
structure State001 where
  wallets : List WDoc
  freeMints : List FMDoc
deriving DecidableEq, Repr

/-- `GET /freemint/check/:discordId` of `part_001` (lines 63-67):
`FreeMint.findOne({discordId})`, reported as `hasFreeMint: !!userEntry`. -/
def hasFreeMint (st : State001) (uid : String) : Bool :=
  (st.freeMints.find? (fun e => e.discordId == uid)).isSome

/-- The operations of the `part_001` program: its five HTTP endpoints
and its one slash command. -/
inductive Op001 where
  | getWhitelist
  | freemintCheck (uid : String)
  | postWhitelist (uid wallet : String)
  | postReplaceWhitelist (uid oldW newW : String)
  | getExportWhitelist
  | cmdExportWhitelist
deriving DecidableEq, Repr

/-- Run one `part_001` request.  The GET endpoints and the export
command only read; the two POST endpoints write the `Wallet`
collection; a failing request writes nothing. -/
def applyOp001 (st : State001) : Op001 → State001
  | .getWhitelist => st
  | .freemintCheck _ => st
  | .postWhitelist u w =>
      match add001 st.wallets u w with
      | .ok ws => { st with wallets := ws }
      | .error _ => st
  | .postReplaceWhitelist u o n =>
      match replace001 st.wallets u o n with
      | .ok ws => { st with wallets := ws }
      | .error _ => st
  | .getExportWhitelist => st
  | .cmdExportWhitelist => st

/-- Run a sequence of `part_001` requests left to right. -/
def applyOps001 (st : State001) (ops : List Op001) : State001 :=
  ops.foldl applyOp001 st

end HttpVariant

/-! ## Basic lemmas -/

theorem mem_ownerDocs {s : List Entry} {uid lt : String} {d : Entry} :
    d ∈ ownerDocs s uid lt ↔ d ∈ s ∧ d.discordId = uid ∧ d.listType = lt := by
  simp [ownerDocs, List.mem_filter]

theorem find?_keyed3_eq_none {s : List Entry} {u w lt : String}
    (h : countKey3 s u w lt = 0) : s.find? (keyed3 u w lt) = none := by
  rw [List.find?_eq_none]
  intro x hx hpx
  have hmem : x ∈ s.filter (keyed3 u w lt) := List.mem_filter.mpr ⟨hx, hpx⟩
  unfold countKey3 at h
  rw [List.length_eq_zero.mp h] at hmem
  exact absurd hmem (List.not_mem_nil x)

theorem find?_keyed2_eq_none {s : List Entry} {u w : String}
    (h : countKey2 s u w = 0) : s.find? (keyed2 u w) = none := by
  rw [List.find?_eq_none]
  intro x hx hpx
  have hmem : x ∈ s.filter (keyed2 u w) := List.mem_filter.mpr ⟨hx, hpx⟩
  unfold countKey2 at h
  rw [List.length_eq_zero.mp h] at hmem
  exact absurd hmem (List.not_mem_nil x)

theorem freeMints_applyOp001 (st : HttpVariant.State001) (op : HttpVariant.Op001) :
    (HttpVariant.applyOp001 st op).freeMints = st.freeMints := by
  cases op with
  | postWhitelist u w =>
      simp only [HttpVariant.applyOp001]
      cases HttpVariant.add001 st.wallets u w <;> rfl
  | postReplaceWhitelist u o n =>
      simp only [HttpVariant.applyOp001]
      cases HttpVariant.replace001 st.wallets u o n <;> rfl
  | _ => rfl

theorem freeMints_applyOps001 (st : HttpVariant.State001) (ops : List HttpVariant.Op001) :
    (HttpVariant.applyOps001 st ops).freeMints = st.freeMints := by
  induction ops generalizing st with
  | nil => rfl
  | cons op rest ih =>
      show (HttpVariant.applyOps001 (HttpVariant.applyOp001 st op) rest).freeMints = _
      rw [ih, freeMints_applyOp001]

/-! ## Claims -/

theorem addWallet_ok {s : List Entry} {u w lt : String} {r : List Entry × String}
    (h : addWallet s u w lt = .ok r) :
    r = (s ++ [⟨u, w, lt, false, effectiveLimit s u lt⟩],
         "✅ **" ++ w ++ "** added to the **" ++ lt ++ "** list!") ∧
    ((ownerDocs s u lt).any fun d => d.walletAddress == w) = false := by
  unfold addWallet at h
  by_cases hdup : ((ownerDocs s u lt).any fun d => d.walletAddress == w) = true
  · rw [if_pos hdup] at h
    cases h
  · rw [if_neg hdup] at h
    refine ⟨?_, eq_false_of_ne_true hdup⟩
    by_cases hslot : lt = "whitelist" ∧
        ((ownerDocs s u lt).length : Int) ≥ effectiveLimit s u lt
    · rw [if_pos hslot] at h
      cases h
    · rw [if_neg hslot] at h
      injection h with h
      exact h.symm

theorem httpAddWallet_ok {s : List Entry} {u w : String} {s' : List Entry}
    (h : httpAddWallet s u w = .ok s') :
    s' = s ++ [⟨u, w, "whitelist", false, 1⟩] ∧ s.find? (keyed2 u w) = none := by
  unfold httpAddWallet at h
  cases hf : s.find? (keyed2 u w) with
  | some d => rw [hf] at h; cases h
  | none =>
      rw [hf] at h
      injection h with h
      exact ⟨h.symm, rfl⟩

theorem countKey3_eq_zero_of_not_dup {s : List Entry} {u w lt : String}
    (h : ((ownerDocs s u lt).any fun d => d.walletAddress == w) = false) :
    countKey3 s u w lt = 0 := by
  unfold countKey3
  rw [List.length_eq_zero, List.filter_eq_nil_iff]
  intro a ha hka
  have hfields : a.discordId = u ∧ a.walletAddress = w ∧ a.listType = lt := by
    simpa [keyed3, and_assoc] using hka
  have hmem : a ∈ ownerDocs s u lt := mem_ownerDocs.mpr ⟨ha, hfields.1, hfields.2.2⟩
  have := List.any_eq_false.mp h a hmem
  simp [hfields.2.1] at this

theorem countKey2_eq_zero_of_find?_none {s : List Entry} {u w : String}
    (h : s.find? (keyed2 u w) = none) : countKey2 s u w = 0 := by
  unfold countKey2
  rw [List.length_eq_zero, List.filter_eq_nil_iff]
  exact List.find?_eq_none.mp h

/-- C4: adding the same `(ownerId, address, listKind)` twice: from the
empty store the first add succeeds, and from any state in which an add
succeeded, the identical add fails with `DuplicateEntry` and the store
holds exactly one matching Entry.  The same holds for the HTTP add,
whose key is `(discordId, walletAddress)`. -/
theorem add_twice_duplicate (s : List Entry) (u w lt : String) :
    (∃ r, addWallet [] u w lt = .ok r) ∧
    (∀ s' msg, addWallet s u w lt = .ok (s', msg) →
      addWallet s' u w lt = .error .duplicateEntry ∧ countKey3 s' u w lt = 1) ∧
    (∃ t, httpAddWallet [] u w = .ok t) ∧
    (∀ s', httpAddWallet s u w = .ok s' →
      httpAddWallet s' u w = .error .duplicateEntry ∧ countKey2 s' u w = 1) := by
  refine ⟨?_, ?_, ⟨_, rfl⟩, ?_⟩
  · have hd : ((ownerDocs [] u lt).any fun d => d.walletAddress == w) ≠ true := by
      simp [ownerDocs]
    have hs : ¬ (lt = "whitelist" ∧
        ((ownerDocs ([] : List Entry) u lt).length : Int) ≥ effectiveLimit [] u lt) := by
      rintro ⟨-, hge⟩
      norm_num [ownerDocs, effectiveLimit] at hge
    have hfirst : addWallet [] u w lt =
        .ok ([] ++ [⟨u, w, lt, false, effectiveLimit [] u lt⟩],
             "✅ **" ++ w ++ "** added to the **" ++ lt ++ "** list!") := by
      unfold addWallet
      rw [if_neg hd, if_neg hs]
    exact ⟨_, hfirst⟩
  · intro s' msg h
    obtain ⟨hr, hdup⟩ := addWallet_ok h
    have hs' : s' = s ++ [⟨u, w, lt, false, effectiveLimit s u lt⟩] :=
      congrArg Prod.fst hr
    subst hs'
    constructor
    · have hmem : (⟨u, w, lt, false, effectiveLimit s u lt⟩ : Entry) ∈
          ownerDocs (s ++ [⟨u, w, lt, false, effectiveLimit s u lt⟩]) u lt :=
        mem_ownerDocs.mpr ⟨by simp, rfl, rfl⟩
      have hany : ((ownerDocs (s ++ [⟨u, w, lt, false, effectiveLimit s u lt⟩]) u lt).any
          fun d => d.walletAddress == w) = true :=
        List.any_eq_true.mpr ⟨_, hmem, by simp⟩
      unfold addWallet
      rw [if_pos hany]
    · unfold countKey3
      rw [List.filter_append, List.length_append]
      have h0 := countKey3_eq_zero_of_not_dup hdup
      unfold countKey3 at h0
      rw [h0]
      simp [keyed3]
  · intro s' h
    obtain ⟨hs', hnone⟩ := httpAddWallet_ok h
    subst hs'
    constructor
    · have hfind : (s ++ [(⟨u, w, "whitelist", false, 1⟩ : Entry)]).find? (keyed2 u w) =
          some (⟨u, w, "whitelist", false, 1⟩ : Entry) := by
        rw [List.find?_append, hnone]
        simp [keyed2]
      unfold httpAddWallet
      rw [hfind]
    · unfold countKey2
      rw [List.filter_append, List.length_append]
      have h0 := countKey2_eq_zero_of_find?_none hnone
      unfold countKey2 at h0
      rw [h0]
      simp [keyed2]

theorem add_twice_duplicate_witness :
    addWallet [] "u" "0xA" "whitelist" =
      .ok ([⟨"u", "0xA", "whitelist", false, 1⟩],
           "✅ **0xA** added to the **whitelist** list!") ∧
    addWallet [⟨"u", "0xA", "whitelist", false, 1⟩] "u" "0xA" "whitelist" =
      .error .duplicateEntry ∧
    countKey3 [⟨"u", "0xA", "whitelist", false, 1⟩] "u" "0xA" "whitelist" = 1 := by
  have h := (add_twice_duplicate [] "u" "0xA" "whitelist").2.1
    [⟨"u", "0xA", "whitelist", false, 1⟩]
    "✅ **0xA** added to the **whitelist** list!" rfl
  exact ⟨rfl, h.1, h.2⟩

theorem saveReplaced_spec {p : Entry → Bool} {newW : String} {s : List Entry} {d : Entry}
    (h : s.find? p = some d) :
    ∃ i : Nat, s[i]? = some d ∧ p d = true ∧
      (saveReplaced p newW s)[i]? = some { d with walletAddress := newW } ∧
      ∀ j : Nat, j ≠ i → (saveReplaced p newW s)[j]? = s[j]? := by
  induction s with
  | nil => cases h
  | cons a t ih =>
      cases hpa : p a with
      | true =>
          rw [List.find?_cons_of_pos _ hpa] at h
          injection h with h
          subst h
          refine ⟨0, by simp, hpa, by simp [saveReplaced, hpa], ?_⟩
          intro j hj
          match j with
          | 0 => exact absurd rfl hj
          | k + 1 => simp [saveReplaced, hpa]
      | false =>
          rw [List.find?_cons_of_neg _ (by simp [hpa])] at h
          obtain ⟨i, h1, h2, h3, h4⟩ := ih h
          refine ⟨i + 1, by simpa using h1, h2, by simp [saveReplaced, hpa, h3], ?_⟩
          intro j hj
          match j with
          | 0 => simp [saveReplaced, hpa]
          | k + 1 =>
              have hk : k ≠ i := fun hk => hj (by rw [hk])
              simp [saveReplaced, hpa, h4 k hk]

/-- C6: a successful Replace mutates exactly the matched Entry, and on
that Entry exactly the `address` field — the record update
`{ d with walletAddress := newW }` preserves `maxSlots`, `viaCode`,
`ownerId` and `listKind` — while every other position of the store is
unchanged.  The same frame property holds for the HTTP replace. -/
theorem replace_frame (s : List Entry) (u oldW newW lt : String) :
    (∀ s', replaceWallet s u oldW newW lt = .ok s' →
      ∃ (i : Nat) (d : Entry), s[i]? = some d ∧
        d.discordId = u ∧ d.walletAddress = oldW ∧ d.listType = lt ∧
        s'[i]? = some { d with walletAddress := newW } ∧
        ∀ j : Nat, j ≠ i → s'[j]? = s[j]?) ∧
    (∀ s', httpReplaceWallet s u oldW newW = .ok s' →
      ∃ (i : Nat) (d : Entry), s[i]? = some d ∧
        d.discordId = u ∧ d.walletAddress = oldW ∧
        s'[i]? = some { d with walletAddress := newW } ∧
        ∀ j : Nat, j ≠ i → s'[j]? = s[j]?) := by
  constructor
  · intro s' h
    unfold replaceWallet at h
    cases hf : s.find? (keyed3 u oldW lt) with
    | none => rw [hf] at h; cases h
    | some d =>
        rw [hf] at h
        cases hf2 : s.find? (keyed3 u newW lt) with
        | some d2 => rw [hf2] at h; cases h
        | none =>
            rw [hf2] at h
            injection h with h
            subst h
            obtain ⟨i, h1, h2, h3, h4⟩ := saveReplaced_spec hf
            have hfields : (d.discordId = u ∧ d.walletAddress = oldW) ∧ d.listType = lt := by
              simpa [keyed3] using h2
            exact ⟨i, d, h1, hfields.1.1, hfields.1.2, hfields.2, h3, h4⟩
  · intro s' h
    unfold httpReplaceWallet at h
    cases hf : s.find? (keyed2 u oldW) with
    | none => rw [hf] at h; cases h
    | some d =>
        rw [hf] at h
        injection h with h
        subst h
        obtain ⟨i, h1, h2, h3, h4⟩ := saveReplaced_spec hf
        have hfields : d.discordId = u ∧ d.walletAddress = oldW := by
          simpa [keyed2] using h2
        exact ⟨i, d, h1, hfields.1, hfields.2, h3, h4⟩

theorem replace_frame_witness :
    ∃ (i : Nat) (d : Entry),
      ([⟨"u", "a", "whitelist", false, 2⟩, ⟨"u", "b", "whitelist", false, 2⟩] :
        List Entry)[i]? = some d ∧
      d.discordId = "u" ∧ d.walletAddress = "a" ∧ d.listType = "whitelist" ∧
      ([⟨"u", "c", "whitelist", false, 2⟩, ⟨"u", "b", "whitelist", false, 2⟩] :
        List Entry)[i]? = some { d with walletAddress := "c" } ∧
      ∀ j : Nat, j ≠ i →
        ([⟨"u", "c", "whitelist", false, 2⟩, ⟨"u", "b", "whitelist", false, 2⟩] :
          List Entry)[j]? =
        ([⟨"u", "a", "whitelist", false, 2⟩, ⟨"u", "b", "whitelist", false, 2⟩] :
          List Entry)[j]? :=
  (replace_frame [⟨"u", "a", "whitelist", false, 2⟩, ⟨"u", "b", "whitelist", false, 2⟩]
    "u" "a" "c" "whitelist").1
    [⟨"u", "c", "whitelist", false, 2⟩, ⟨"u", "b", "whitelist", false, 2⟩] rfl

/-- C5: in every state where no Entry matches `(ownerId, oldAddress,
listKind)`, the command-surface Replace fails with `EntryNotFound` and
the store is exactly unchanged; the HTTP replace — whose lookup is
keyed on `(discordId, oldWallet)` only, its schema having no list kind
— likewise fails with the not-found error and changes nothing when no
entry holds the old wallet. -/
theorem replace_missing_fails_unchanged (s : List Entry) (u oldW newW lt : String)
    (h3 : countKey3 s u oldW lt = 0) :
    replaceWallet s u oldW newW lt = .error .entryNotFound ∧
    applyOp s (.cmdReplace u oldW newW lt) = s ∧
    (countKey2 s u oldW = 0 →
      httpReplaceWallet s u oldW newW = .error .entryNotFound ∧
      applyOp s (.httpReplace u oldW newW) = s) := by
  have hf := find?_keyed3_eq_none h3
  refine ⟨?_, ?_, fun h2 => ?_⟩
  · simp [replaceWallet, hf]
  · simp [applyOp, replaceWallet, hf]
  · have hf2 := find?_keyed2_eq_none h2
    exact ⟨by simp [httpReplaceWallet, hf2], by simp [applyOp, httpReplaceWallet, hf2]⟩

theorem replace_missing_fails_unchanged_witness :
    countKey3 [⟨"u", "x", "whitelist", false, 1⟩] "u" "a" "whitelist" = 0 ∧
    replaceWallet [⟨"u", "x", "whitelist", false, 1⟩] "u" "a" "b" "whitelist" =
      .error .entryNotFound ∧
    applyOp [⟨"u", "x", "whitelist", false, 1⟩] (.httpReplace "u" "a" "b") =
      [⟨"u", "x", "whitelist", false, 1⟩] := by
  have h := replace_missing_fails_unchanged
    [⟨"u", "x", "whitelist", false, 1⟩] "u" "a" "b" "whitelist" (by decide)
  exact ⟨by decide, h.1, (h.2.2 (by decide)).2⟩

theorem filter_map_of_pred_eq {g : Entry → Entry} {p : Entry → Bool}
    (hp : ∀ a, p (g a) = p a) (s : List Entry) :
    (s.map g).filter p = (s.filter p).map g := by
  rw [List.filter_map]
  congr 1
  apply List.filter_congr
  intro a _
  exact hp a

/-- C3: Increase-slots rejects a non-positive delta with
`InvalidArgument`; on an owner with zero whitelist Entries it appends
exactly one placeholder Entry with sentinel address `"NONE"` and
`maxSlots = 1 + delta`; on an owner whose fetched documents start with
`d0` (so the current limit is `L = d0.maxWhitelistEntries`) it sets
`maxSlots = L + delta` on all of the owner's Entries, changing neither
the store size nor the owner's Entry count. -/
theorem increase_slots_correct (s : List Entry) (uid : String) (delta : Int) :
    (delta ≤ 0 → increaseWhiteSlots s uid delta = .error .invalidArgument) ∧
    (0 < delta → ownerDocs s uid "whitelist" = [] →
      increaseWhiteSlots s uid delta =
        .ok (s ++ [⟨uid, "NONE", "whitelist", false, 1 + delta⟩])) ∧
    (0 < delta → ∀ d0 t, ownerDocs s uid "whitelist" = d0 :: t →
      ∃ s', increaseWhiteSlots s uid delta = .ok s' ∧
        s'.length = s.length ∧
        (∀ e ∈ ownerDocs s' uid "whitelist",
          e.maxWhitelistEntries = d0.maxWhitelistEntries + delta) ∧
        (ownerDocs s' uid "whitelist").length = (ownerDocs s uid "whitelist").length) := by
  refine ⟨fun hneg => ?_, fun hpos hnil => ?_, fun hpos d0 t heq => ?_⟩
  · simp [increaseWhiteSlots, hneg]
  · simp [increaseWhiteSlots, hnil, show ¬ delta ≤ 0 from not_le.mpr hpos]
  · have hlt : ¬ delta ≤ 0 := not_le.mpr hpos
    unfold increaseWhiteSlots
    rw [if_neg hlt, heq]
    have hp : ∀ a : Entry,
        ((if a.discordId == uid && a.listType == "whitelist" then
            { a with maxWhitelistEntries := d0.maxWhitelistEntries + delta }
          else a).discordId == uid &&
         (if a.discordId == uid && a.listType == "whitelist" then
            { a with maxWhitelistEntries := d0.maxWhitelistEntries + delta }
          else a).listType == "whitelist") =
        (a.discordId == uid && a.listType == "whitelist") := by
      intro a
      by_cases h : (a.discordId == uid && a.listType == "whitelist") = true
      · simp [h]
      · rw [if_neg h]
    refine ⟨_, rfl, by simp, ?_, ?_⟩
    · intro e he
      unfold ownerDocs at he
      rw [filter_map_of_pred_eq hp] at he
      obtain ⟨a, ha, rfl⟩ := List.mem_map.mp he
      have hpa := (List.mem_filter.mp ha).2
      simp [hpa]
    · show (ownerDocs (s.map _) uid "whitelist").length = _
      unfold ownerDocs
      rw [filter_map_of_pred_eq hp, List.length_map]
      have hlen := congrArg List.length heq
      unfold ownerDocs at hlen
      exact hlen

theorem increase_slots_correct_witness :
    increaseWhiteSlots [⟨"u", "a", "whitelist", false, 2⟩] "u" 0 =
      .error .invalidArgument ∧
    increaseWhiteSlots [] "u" 3 = .ok [⟨"u", "NONE", "whitelist", false, 4⟩] ∧
    ∃ s', increaseWhiteSlots
        [⟨"u", "a", "whitelist", false, 2⟩, ⟨"v", "z", "whitelist", false, 1⟩] "u" 3 =
        .ok s' ∧
      s'.length = 2 ∧
      (∀ e ∈ ownerDocs s' "u" "whitelist", e.maxWhitelistEntries = 5) := by
  refine ⟨(increase_slots_correct _ "u" 0).1 (by decide), ?_, ?_⟩
  · have h := (increase_slots_correct [] "u" 3).2.1 (by decide) (by decide)
    simpa using h
  · have h := (increase_slots_correct
      [⟨"u", "a", "whitelist", false, 2⟩, ⟨"v", "z", "whitelist", false, 1⟩] "u" 3).2.2
      (by decide) ⟨"u", "a", "whitelist", false, 2⟩ [] (by decide)
    obtain ⟨s', h1, h2, h3, _⟩ := h
    exact ⟨s', h1, h2, fun e he => h3 e he⟩

theorem forall₂_mem_right {R : Entry → Entry → Prop} {l₁ l₂ : List Entry}
    (h : List.Forall₂ R l₁ l₂) : ∀ b ∈ l₂, ∃ a ∈ l₁, R a b := by
  induction h with
  | nil => intro b hb; cases hb
  | cons hr _ ih =>
      intro b hb
      rcases List.mem_cons.mp hb with rfl | hb'
      · exact ⟨_, List.mem_cons_self _ _, hr⟩
      · obtain ⟨a, ha, hra⟩ := ih b hb'
        exact ⟨a, List.mem_cons_of_mem _ ha, hra⟩

theorem sameMax_of_forall₂ {s s' : List Entry}
    (h : List.Forall₂ (fun a b => a.discordId = b.discordId ∧ a.listType = b.listType ∧
      a.maxWhitelistEntries = b.maxWhitelistEntries) s s')
    (hs : SameMax s) : SameMax s' := by
  intro d1 h1 d2 h2 hid hlt
  obtain ⟨a1, ha1, e1id, e1lt, e1m⟩ := forall₂_mem_right h d1 h1
  obtain ⟨a2, ha2, e2id, e2lt, e2m⟩ := forall₂_mem_right h d2 h2
  rw [← e1m, ← e2m]
  exact hs a1 ha1 a2 ha2 (by rw [e1id, e2id, hid]) (by rw [e1lt, e2lt, hlt])

theorem saveReplaced_forall₂ (p : Entry → Bool) (w : String) (s : List Entry) :
    List.Forall₂ (fun a b => a.discordId = b.discordId ∧ a.listType = b.listType ∧
      a.maxWhitelistEntries = b.maxWhitelistEntries) s (saveReplaced p w s) := by
  induction s with
  | nil => exact List.Forall₂.nil
  | cons a t ih =>
      by_cases hpa : p a = true
      · rw [show saveReplaced p w (a :: t) = { a with walletAddress := w } :: t from by
          simp [saveReplaced, hpa]]
        exact List.Forall₂.cons ⟨rfl, rfl, rfl⟩
          (List.forall₂_same.mpr fun x _ => ⟨rfl, rfl, rfl⟩)
      · rw [show saveReplaced p w (a :: t) = a :: saveReplaced p w t from by
          simp [saveReplaced, hpa]]
        exact List.Forall₂.cons ⟨rfl, rfl, rfl⟩ ih

theorem sameMax_append {s : List Entry} {e : Entry} (hs : SameMax s)
    (he : ∀ d ∈ s, d.discordId = e.discordId → d.listType = e.listType →
      d.maxWhitelistEntries = e.maxWhitelistEntries) : SameMax (s ++ [e]) := by
  intro d1 h1 d2 h2 hid hlt
  rcases List.mem_append.mp h1 with h1' | h1' <;>
    rcases List.mem_append.mp h2 with h2' | h2'
  · exact hs d1 h1' d2 h2' hid hlt
  · rw [List.mem_singleton.mp h2'] at hid hlt ⊢
    exact he d1 h1' hid hlt
  · rw [List.mem_singleton.mp h1'] at hid hlt ⊢
    exact (he d2 h2' hid.symm hlt.symm).symm
  · rw [List.mem_singleton.mp h1', List.mem_singleton.mp h2']

theorem sameMax_addWallet {s : List Entry} {u w lt : String} (hs : SameMax s) :
    ∀ r, addWallet s u w lt = .ok r → SameMax r.1 := by
  intro r h
  obtain ⟨hr, -⟩ := addWallet_ok h
  subst hr
  apply sameMax_append hs
  intro d hd hid hlt
  have hdocs : d ∈ ownerDocs s u lt := mem_ownerDocs.mpr ⟨hd, hid, hlt⟩
  show d.maxWhitelistEntries = effectiveLimit s u lt
  cases hOD : ownerDocs s u lt with
  | nil =>
      rw [hOD] at hdocs
      cases hdocs
  | cons h0 t0 =>
      unfold effectiveLimit
      rw [hOD]
      have hh0 : h0 ∈ ownerDocs s u lt := by
        rw [hOD]
        exact List.mem_cons_self h0 t0
      have h0f := mem_ownerDocs.mp hh0
      have hdf := mem_ownerDocs.mp hdocs
      exact hs d hd h0 h0f.1 (by rw [hdf.2.1, h0f.2.1]) (by rw [hdf.2.2, h0f.2.2])

theorem sameMax_increase {s : List Entry} {u : String} {k : Int} (hs : SameMax s) :
    ∀ s', increaseWhiteSlots s u k = .ok s' → SameMax s' := by
  intro s' h
  unfold increaseWhiteSlots at h
  by_cases hk : k ≤ 0
  · rw [if_pos hk] at h
    cases h
  · rw [if_neg hk] at h
    cases hOD : ownerDocs s u "whitelist" with
    | nil =>
        rw [hOD] at h
        injection h with h
        subst h
        apply sameMax_append hs
        intro d hd hid hlt
        have : d ∈ ownerDocs s u "whitelist" := mem_ownerDocs.mpr ⟨hd, hid, hlt⟩
        rw [hOD] at this
        cases this
    | cons d0 t0 =>
        rw [hOD] at h
        injection h with h
        subst h
        intro d1 h1 d2 h2 hid hlt
        obtain ⟨a1, ha1, rfl⟩ := List.mem_map.mp h1
        obtain ⟨a2, ha2, rfl⟩ := List.mem_map.mp h2
        have gid : ∀ a : Entry,
            ((if a.discordId == u && a.listType == "whitelist" then
              { a with maxWhitelistEntries := d0.maxWhitelistEntries + k }
            else a) : Entry).discordId = a.discordId := by
          intro a
          split <;> rfl
        have glt : ∀ a : Entry,
            ((if a.discordId == u && a.listType == "whitelist" then
              { a with maxWhitelistEntries := d0.maxWhitelistEntries + k }
            else a) : Entry).listType = a.listType := by
          intro a
          split <;> rfl
        have hid' : a1.discordId = a2.discordId := by
          rw [← gid a1, ← gid a2]
          exact hid
        have hlt' : a1.listType = a2.listType := by
          rw [← glt a1, ← glt a2]
          exact hlt
        by_cases p1 : (a1.discordId == u && a1.listType == "whitelist") = true <;>
          by_cases p2 : (a2.discordId == u && a2.listType == "whitelist") = true
        · simp only [p1, p2, if_true]
        · exfalso
          apply p2
          rw [← hid', ← hlt']
          exact p1
        · exfalso
          apply p1
          rw [hid', hlt']
          exact p2
        · simp only [p1, p2, if_false, Bool.false_eq_true, if_neg]
          simp only [show (if (a1.discordId == u && a1.listType == "whitelist") = true then
              ({ a1 with maxWhitelistEntries := d0.maxWhitelistEntries + k } : Entry)
            else a1) = a1 from if_neg p1,
            show (if (a2.discordId == u && a2.listType == "whitelist") = true then
              ({ a2 with maxWhitelistEntries := d0.maxWhitelistEntries + k } : Entry)
            else a2) = a2 from if_neg p2] at hid hlt ⊢
          exact hs a1 ha1 a2 ha2 hid hlt

theorem replaceWallet_ok_eq {s : List Entry} {u o n lt : String} {t : List Entry}
    (h : replaceWallet s u o n lt = .ok t) : t = saveReplaced (keyed3 u o lt) n s := by
  unfold replaceWallet at h
  cases hf : s.find? (keyed3 u o lt) with
  | none => rw [hf] at h; cases h
  | some d =>
      rw [hf] at h
      cases hf2 : s.find? (keyed3 u n lt) with
      | some d2 => rw [hf2] at h; cases h
      | none =>
          rw [hf2] at h
          injection h with h
          exact h.symm

theorem httpReplaceWallet_ok_eq {s : List Entry} {u o n : String} {t : List Entry}
    (h : httpReplaceWallet s u o n = .ok t) : t = saveReplaced (keyed2 u o) n s := by
  unfold httpReplaceWallet at h
  cases hf : s.find? (keyed2 u o) with
  | none => rw [hf] at h; cases h
  | some d =>
      rw [hf] at h
      injection h with h
      exact h.symm

theorem sameMax_applyOp {s : List Entry} {op : Op} (hs : SameMax s)
    (hop : op.isHttpAdd = false) : SameMax (applyOp s op) := by
  cases op with
  | cmdAdd u w lt =>
      show SameMax (match addWallet s u w lt with | .ok r => r.1 | .error _ => s)
      cases h : addWallet s u w lt with
      | ok r => exact sameMax_addWallet hs r h
      | error e => exact hs
  | httpAdd u w => simp [Op.isHttpAdd] at hop
  | cmdReplace u o n lt =>
      show SameMax (match replaceWallet s u o n lt with | .ok t => t | .error _ => s)
      cases h : replaceWallet s u o n lt with
      | ok t =>
          rw [replaceWallet_ok_eq h]
          exact sameMax_of_forall₂ (saveReplaced_forall₂ _ _ _) hs
      | error e => exact hs
  | httpReplace u o n =>
      show SameMax (match httpReplaceWallet s u o n with | .ok t => t | .error _ => s)
      cases h : httpReplaceWallet s u o n with
      | ok t =>
          rw [httpReplaceWallet_ok_eq h]
          exact sameMax_of_forall₂ (saveReplaced_forall₂ _ _ _) hs
      | error e => exact hs
  | increaseSlots u k =>
      show SameMax (match increaseWhiteSlots s u k with | .ok t => t | .error _ => s)
      cases h : increaseWhiteSlots s u k with
      | ok t => exact sameMax_increase hs t h
      | error e => exact hs

theorem sameMax_applyOps (ops : List Op) :
    ∀ s : List Entry, SameMax s → (∀ op ∈ ops, op.isHttpAdd = false) →
      SameMax (applyOps s ops) := by
  induction ops with
  | nil => intro s hs _; exact hs
  | cons op rest ih =>
      intro s hs hops
      show SameMax (applyOps (applyOp s op) rest)
      exact ih _ (sameMax_applyOp hs (hops op (List.mem_cons_self _ _)))
        fun o ho => hops o (List.mem_cons_of_mem _ ho)

/-- C1 (amended): starting from the empty store, after any sequence of
command-surface Adds, Replaces on either surface, and Increase-slots
operations — that is, any well-formed sequence free of HTTP
`POST /whitelist` adds — all Entries sharing `(ownerId, listKind)`
carry the same `maxSlots` value.  The HTTP add must be excluded: it
creates its document with the schema default `maxSlots = 1` regardless
of the owner's current limit (see the counterexample). -/
theorem samemax_invariant_no_http_add (ops : List Op)
    (hops : ∀ op ∈ ops, op.isHttpAdd = false) :
    SameMax (applyOps [] ops) :=
  sameMax_applyOps ops []
    (fun d1 h1 => absurd h1 (List.not_mem_nil d1)) hops

theorem samemax_invariant_no_http_add_witness :
    (∀ op ∈ ([.increaseSlots "u" 2, .cmdAdd "u" "0xA" "whitelist",
        .cmdAdd "u" "0xB" "whitelist", .cmdReplace "u" "0xB" "0xC" "whitelist"] : List Op),
      op.isHttpAdd = false) ∧
    SameMax (applyOps [] [.increaseSlots "u" 2, .cmdAdd "u" "0xA" "whitelist",
      .cmdAdd "u" "0xB" "whitelist", .cmdReplace "u" "0xB" "0xC" "whitelist"]) :=
  ⟨by decide, samemax_invariant_no_http_add
    [.increaseSlots "u" 2, .cmdAdd "u" "0xA" "whitelist",
     .cmdAdd "u" "0xB" "whitelist", .cmdReplace "u" "0xB" "0xC" "whitelist"] (by decide)⟩

/-- C1 counterexample: increase-slots for a fresh owner creates the
`'NONE'` placeholder with `maxSlots = 4`; a subsequent well-formed
`POST /whitelist` add for the same owner creates its Entry with the
schema default `maxSlots = 1`, leaving two whitelist Entries of one
owner with different `maxSlots` — the invariant fails on a sequence
that includes the HTTP add. -/
theorem samemax_invariant_cex :
    applyOps [] [.increaseSlots "u" 3, .httpAdd "u" "0xA"] =
      [⟨"u", "NONE", "whitelist", false, 4⟩, ⟨"u", "0xA", "whitelist", false, 1⟩] ∧
    ¬ SameMax (applyOps [] [.increaseSlots "u" 3, .httpAdd "u" "0xA"]) :=
  ⟨rfl, by decide⟩

/-- C7 (amended): every successful Add creates the new Entry with
`maxSlots` copied from the owner's effective limit for that list kind;
the success reply, however, is the fixed message naming the wallet and
the list — it does not report the new usage. -/
theorem add_copies_limit_reply_fixed (s : List Entry) (u w lt : String) :
    ∀ s' msg, addWallet s u w lt = .ok (s', msg) →
      s' = s ++ [⟨u, w, lt, false, effectiveLimit s u lt⟩] ∧
      msg = "✅ **" ++ w ++ "** added to the **" ++ lt ++ "** list!" := by
  intro s' msg h
  obtain ⟨hr, -⟩ := addWallet_ok h
  exact ⟨congrArg Prod.fst hr, congrArg Prod.snd hr⟩

theorem add_copies_limit_reply_fixed_witness :
    [⟨"u", "0xB", "whitelist", false, 2⟩, ⟨"u", "0xA", "whitelist", false, 2⟩] =
      [⟨"u", "0xB", "whitelist", false, 2⟩] ++
        [(⟨"u", "0xA", "whitelist", false,
          effectiveLimit [⟨"u", "0xB", "whitelist", false, 2⟩] "u" "whitelist"⟩ : Entry)] ∧
    "✅ **0xA** added to the **whitelist** list!" =
      "✅ **" ++ "0xA" ++ "** added to the **" ++ "whitelist" ++ "** list!" :=
  add_copies_limit_reply_fixed [⟨"u", "0xB", "whitelist", false, 2⟩] "u" "0xA" "whitelist"
    [⟨"u", "0xB", "whitelist", false, 2⟩, ⟨"u", "0xA", "whitelist", false, 2⟩]
    "✅ **0xA** added to the **whitelist** list!" rfl

/-- C7 counterexample: two successful adds with different usage — from
the empty store the new usage would be "1 of 1", and from a store
holding one entry under limit 2 it would be "2 of 2" — return the
identical fixed reply string, so the success reply does not report the
new usage as `count+1` of `limit`. -/
theorem add_reply_reports_no_usage_cex :
    addWallet [] "u" "0xA" "whitelist" =
      .ok ([⟨"u", "0xA", "whitelist", false, 1⟩],
           "✅ **0xA** added to the **whitelist** list!") ∧
    addWallet [⟨"u", "0xB", "whitelist", false, 2⟩] "u" "0xA" "whitelist" =
      .ok ([⟨"u", "0xB", "whitelist", false, 2⟩, ⟨"u", "0xA", "whitelist", false, 2⟩],
           "✅ **0xA** added to the **whitelist** list!") :=
  ⟨rfl, rfl⟩

/-- C2 (amended): on the whitelist, when the address is not already
present and the owner's entry count has reached the effective limit,
Add fails with `SlotLimitExceeded` and creates no Entry; whenever the
count is below the limit, Add never fails with `SlotLimitExceeded`; and
on the freemint list the source skips the slot check entirely
(`if (listType === 'whitelist')`), so Add never fails with
`SlotLimitExceeded` there. -/
theorem add_slot_limit (s : List Entry) (u w : String) :
    (((ownerDocs s u "whitelist").any fun d => d.walletAddress == w) = false →
      ((ownerDocs s u "whitelist").length : Int) ≥ effectiveLimit s u "whitelist" →
      addWallet s u w "whitelist" = .error .slotLimitExceeded ∧
      applyOp s (.cmdAdd u w "whitelist") = s) ∧
    (∀ lt, ((ownerDocs s u lt).length : Int) < effectiveLimit s u lt →
      addWallet s u w lt ≠ .error .slotLimitExceeded) ∧
    addWallet s u w "freemint" ≠ .error .slotLimitExceeded := by
  refine ⟨fun hd hge => ?_, fun lt hlt hcontra => ?_, fun hcontra => ?_⟩
  · have he : addWallet s u w "whitelist" = .error .slotLimitExceeded := by
      unfold addWallet
      rw [if_neg (ne_true_of_eq_false hd), if_pos ⟨rfl, hge⟩]
    exact ⟨he, by simp [applyOp, he]⟩
  · unfold addWallet at hcontra
    by_cases hdup : ((ownerDocs s u lt).any fun d => d.walletAddress == w) = true
    · rw [if_pos hdup] at hcontra
      simp at hcontra
    · rw [if_neg hdup] at hcontra
      by_cases hslot : lt = "whitelist" ∧
          ((ownerDocs s u lt).length : Int) ≥ effectiveLimit s u lt
      · exact absurd hslot.2 (not_le.mpr hlt)
      · rw [if_neg hslot] at hcontra
        simp at hcontra
  · unfold addWallet at hcontra
    by_cases hdup : ((ownerDocs s u "freemint").any fun d => d.walletAddress == w) = true
    · rw [if_pos hdup] at hcontra
      simp at hcontra
    · rw [if_neg hdup,
        if_neg (by rintro ⟨hfw, -⟩; exact absurd hfw (by decide))] at hcontra
      simp at hcontra

theorem add_slot_limit_witness :
    addWallet [⟨"u", "0xA", "whitelist", false, 1⟩] "u" "0xB" "whitelist" =
      .error .slotLimitExceeded ∧
    applyOp [⟨"u", "0xA", "whitelist", false, 1⟩] (.cmdAdd "u" "0xB" "whitelist") =
      [⟨"u", "0xA", "whitelist", false, 1⟩] ∧
    addWallet [] "u" "0xB" "freemint" ≠ .error .slotLimitExceeded := by
  have h := (add_slot_limit [⟨"u", "0xA", "whitelist", false, 1⟩] "u" "0xB").1
    (by decide) (by decide)
  exact ⟨h.1, h.2, (add_slot_limit [] "u" "0xB").2.2⟩

/-- C2 counterexample: an owner with one freemint Entry at effective
limit 1 adds a second freemint address and the add succeeds — the slot
check is skipped for listKind `freemint`, contradicting "this holds for
every listKind, including freemint". -/
theorem add_freemint_no_slot_check_cex :
    effectiveLimit [⟨"u", "0xA", "freemint", false, 1⟩] "u" "freemint" = 1 ∧
    addWallet [⟨"u", "0xA", "freemint", false, 1⟩] "u" "0xB" "freemint" =
      .ok ([⟨"u", "0xA", "freemint", false, 1⟩, ⟨"u", "0xB", "freemint", false, 1⟩],
           "✅ **0xB** added to the **freemint** list!") :=
  ⟨rfl, rfl⟩

theorem countW_saveReplacedW {p : HttpVariant.WDoc → Bool} {s : List HttpVariant.WDoc}
    {d : HttpVariant.WDoc} {u oldW newW : String}
    (hfind : s.find? p = some d)
    (hp : ∀ e, p e = true → e.discordId = u ∧ e.walletAddress = oldW)
    (hne : oldW ≠ newW) :
    HttpVariant.countW (HttpVariant.saveReplacedW p newW s) u newW =
      HttpVariant.countW s u newW + 1 := by
  induction s with
  | nil => cases hfind
  | cons a t ih =>
      cases hpa : p a with
      | true =>
          obtain ⟨hau, haw⟩ := hp a hpa
          have hka : HttpVariant.keyedW u newW { a with walletAddress := newW } = true := by
            simp [HttpVariant.keyedW, hau]
          have hka' : HttpVariant.keyedW u newW a = false := by
            simp [HttpVariant.keyedW, haw]
            intro _
            exact hne
          unfold HttpVariant.countW
          rw [show HttpVariant.saveReplacedW p newW (a :: t) =
              { a with walletAddress := newW } :: t from by
            simp [HttpVariant.saveReplacedW, hpa]]
          rw [List.filter_cons, List.filter_cons, hka, hka']
          simp
      | false =>
          rw [List.find?_cons_of_neg _ (by simp [hpa])] at hfind
          have ihh := ih hfind
          unfold HttpVariant.countW at ihh ⊢
          rw [show HttpVariant.saveReplacedW p newW (a :: t) =
              a :: HttpVariant.saveReplacedW p newW t from by
            simp [HttpVariant.saveReplacedW, hpa]]
          rw [List.filter_cons, List.filter_cons]
          cases hk : HttpVariant.keyedW u newW a <;> simp [ihh]

theorem find?_keyedW_isSome {s : List HttpVariant.WDoc} {u w : String}
    (h : 1 ≤ HttpVariant.countW s u w) :
    ∃ d, s.find? (HttpVariant.keyedW u w) = some d := by
  unfold HttpVariant.countW at h
  have hex : ∃ x ∈ s, HttpVariant.keyedW u w x := by
    cases hs : s.filter (HttpVariant.keyedW u w) with
    | nil => rw [hs] at h; simp at h
    | cons a t =>
        have ha : a ∈ s.filter (HttpVariant.keyedW u w) := hs ▸ List.mem_cons_self a t
        exact ⟨a, (List.mem_filter.mp ha).1, (List.mem_filter.mp ha).2⟩
  obtain ⟨x, hx, hpx⟩ := hex
  cases hf : s.find? (HttpVariant.keyedW u w) with
  | some d => exact ⟨d, rfl⟩
  | none => exact absurd hpx (List.find?_eq_none.mp hf x hx)

/-- C9: when an owner already holds `newWallet` (exactly one document
matches `(discordId, newWallet)`), replacing a held `oldWallet` by that
`newWallet` through `POST /replacewhitelist` succeeds — the HTTP path
performs no duplicate check on the new address, unlike the
command-surface Replace — and leaves the store with two documents
sharing `(discordId, walletAddress)`.  The `part_001` endpoint behaves
identically once its missing-field check passes. -/
theorem http_replace_no_dup_check (s : List HttpVariant.WDoc) (u oldW newW : String)
    (hold : 1 ≤ HttpVariant.countW s u oldW)
    (hnew : HttpVariant.countW s u newW = 1) (hne : oldW ≠ newW) :
    ∃ s', HttpVariant.replace000 s u oldW newW = .ok s' ∧
      HttpVariant.countW s' u newW = 2 ∧
      (u ≠ "" → oldW ≠ "" → newW ≠ "" →
        HttpVariant.replace001 s u oldW newW = .ok s') := by
  obtain ⟨d, hf⟩ := find?_keyedW_isSome hold
  have hp : ∀ e, HttpVariant.keyedW u oldW e = true →
      e.discordId = u ∧ e.walletAddress = oldW := by
    intro e he
    simpa [HttpVariant.keyedW] using he
  refine ⟨HttpVariant.saveReplacedW (HttpVariant.keyedW u oldW) newW s, ?_, ?_, ?_⟩
  · unfold HttpVariant.replace000
    rw [hf]
  · rw [countW_saveReplacedW hf hp hne, hnew]
  · intro h1 h2 h3
    unfold HttpVariant.replace001
    rw [if_neg (by simp [h1, h2, h3]), hf]

theorem http_replace_no_dup_check_witness :
    HttpVariant.replace000 [⟨"u", "A", false, 1⟩, ⟨"u", "B", false, 1⟩] "u" "A" "B" =
      .ok [⟨"u", "B", false, 1⟩, ⟨"u", "B", false, 1⟩] ∧
    HttpVariant.countW [⟨"u", "B", false, 1⟩, ⟨"u", "B", false, 1⟩] "u" "B" = 2 := by
  have h0 : HttpVariant.replace000 [⟨"u", "A", false, 1⟩, ⟨"u", "B", false, 1⟩]
      "u" "A" "B" = .ok [⟨"u", "B", false, 1⟩, ⟨"u", "B", false, 1⟩] := rfl
  obtain ⟨s', h1, h2, -⟩ := http_replace_no_dup_check
    [⟨"u", "A", false, 1⟩, ⟨"u", "B", false, 1⟩] "u" "A" "B"
    (by decide) (by decide) (by decide)
  rw [h0] at h1
  injection h1 with h1
  subst h1
  exact ⟨h0, h2⟩

theorem csv000_foldl (ws : List HttpVariant.WDoc) (a : String) :
    ws.foldl (fun csv d => csv ++ (d.discordId ++ "," ++ d.walletAddress ++ "\n")) a =
      a ++ HttpVariant.concatAll
        (ws.map fun d => d.discordId ++ "," ++ d.walletAddress ++ "\n") := by
  induction ws generalizing a with
  | nil => simp [HttpVariant.concatAll]
  | cons d t ih =>
      rw [List.foldl_cons, ih, List.map_cons]
      show _ = a ++ HttpVariant.concatAll _
      rw [HttpVariant.concatAll, String.append_assoc]

theorem joinSep_newline_cons (h : String) (rows : List String) :
    HttpVariant.joinSep "\n" (h :: rows) =
      h ++ HttpVariant.concatAll (rows.map fun r => "\n" ++ r) := by
  induction rows generalizing h with
  | nil => simp [HttpVariant.joinSep, HttpVariant.concatAll]
  | cons r rest ih =>
      rw [show HttpVariant.joinSep "\n" (h :: r :: rest) =
          h ++ "\n" ++ HttpVariant.joinSep "\n" (r :: rest) from rfl, ih r]
      simp [HttpVariant.concatAll, String.append_assoc]

/-- C8: a successful export renders exactly one header line beginning
`Discord ID,Wallet Address`, followed by exactly one comma-joined line
per document with fields in declared order: the `part_000` CSV is the
newline-terminated header followed by one newline-terminated
`discordId,walletAddress` line per document, and the `part_001` CSV —
whose export succeeds exactly when the store is nonempty — is the
four-field header line followed by one comma-joined row line per
document. -/
theorem export_header_and_rows (ws : List HttpVariant.WDoc) :
    HttpVariant.csv000 ws =
      "Discord ID,Wallet Address\n" ++
        HttpVariant.concatAll
          (ws.map fun d => d.discordId ++ "," ++ d.walletAddress ++ "\n") ∧
    (ws ≠ [] →
      HttpVariant.csv001 ws =
        .ok ("Discord ID,Wallet Address,Registered Via Code,Max Whitelist Entries" ++
          HttpVariant.concatAll
            (ws.map fun d => "\n" ++ HttpVariant.joinSep "," (HttpVariant.csvRow001 d)))) := by
  constructor
  · exact csv000_foldl ws _
  · intro hne
    unfold HttpVariant.csv001
    rw [if_neg (by simpa [List.length_eq_zero] using hne)]
    rw [joinSep_newline_cons, List.map_map]
    rfl

theorem export_header_and_rows_witness :
    HttpVariant.csv000 [⟨"u", "0xA", false, 2⟩] = "Discord ID,Wallet Address\nu,0xA\n" ∧
    HttpVariant.csv001 [⟨"u", "0xA", false, 2⟩] =
      .ok "Discord ID,Wallet Address,Registered Via Code,Max Whitelist Entries\nu,0xA,No,2" := by
  have h := export_header_and_rows [⟨"u", "0xA", false, 2⟩]
  exact ⟨h.1.trans rfl, (h.2 (by decide)).trans rfl⟩

/-- C10: in the `part_001` variant, no operation ever writes the
`FreeMint` collection, so starting from the empty store
`GET /freemint/check/:discordId` answers `hasFreeMint: false` for every
discordId after any sequence of the program's operations. -/
theorem freemint_check_always_false (ops : List HttpVariant.Op001) (uid : String) :
    HttpVariant.hasFreeMint (HttpVariant.applyOps001 ⟨[], []⟩ ops) uid = false := by
  unfold HttpVariant.hasFreeMint
  rw [freeMints_applyOps001]
  rfl

end Listcat
